import Mathlib

/-!
Verification of the cubby-server file/folder lifecycle manager.

This file gives a shallow embedding of the route handlers in
`src/routes/files.ts` and `src/routes/folders.ts` (first variant, the one the
claims cite by line number) together with the helpers they use
(`src/config/mime-types.ts`, `storage.service.ts` key generation), and proves
properties about them.

Modelling conventions:
  * Prisma tables are Lean lists of records; `findFirst`/`findUnique` become
    `List.find?`, `update` becomes a `List.map` that rewrites the matching row.
  * JavaScript `BigInt` quantities (`quota`, `usedSpace`, file sizes) are `Int`.
  * The S3 object store is a list of keys; fault injection booleans
    (`putOk`, `deleteOk`, `txOk`) model an object-store call or a transaction
    throwing, which the handlers catch and turn into a 500 reply.
  * Multipart file parts are modelled fully materialised: in this sequential
    model `file.file.bytesRead` at check time and `buffer.length` after
    buffering both equal the part's size (the `|| 0` fallback is absorbed,
    since a zero-size part yields 0 either way).
  * `Date.now()` / `new Date()` timestamps and `nanoid()` identifiers are
    supplied as explicit parameters.
  * JavaScript `String.prototype.replace(searchString, replacement)` is
    modelled faithfully: first occurrence only, with the ECMAScript
    GetSubstitution treatment of dollar patterns in the replacement.
-/

namespace Cubby

/-! ## JavaScript string primitives -/

/-- Backquote character (code 96), written by code point to keep the file
plain ASCII-friendly. -/
def backquoteChar : Char := Char.ofNat 96

/-- Single-quote character (code 39). -/
def singleQuoteChar : Char := Char.ofNat 39

/-- ECMAScript GetSubstitution for a string-valued search pattern (no capture
groups): expands the dollar escapes in the replacement text.  `matched` is the
search string itself, `before` the part of the subject preceding the match and
`after` the part following it. -/
def getSubstitution (rep matched bef aft : List Char) : List Char :=
  match rep with
  | [] => []
  | [c] => [c]
  | c :: d :: rest =>
    if c = '$' then
      if d = '$' then '$' :: getSubstitution rest matched bef aft
      else if d = '&' then matched ++ getSubstitution rest matched bef aft
      else if d = backquoteChar then bef ++ getSubstitution rest matched bef aft
      else if d = singleQuoteChar then aft ++ getSubstitution rest matched bef aft
      else '$' :: getSubstitution (d :: rest) matched bef aft
    else c :: getSubstitution (d :: rest) matched bef aft

/-- Locate the first occurrence of `pat` in `s`; returns the pieces of `s`
before and after that occurrence. -/
def findMatch : List Char → List Char → Option (List Char × List Char)
  | s, pat =>
    if pat.isPrefixOf s then some ([], s.drop pat.length)
    else
      match s with
      | [] => none
      | c :: rest =>
        match findMatch rest pat with
        | none => none
        | some (bef, aft) => some (c :: bef, aft)

/-- JavaScript `s.replace(pat, rep)` for string arguments: replace the first
occurrence of `pat`, expanding dollar escapes in `rep`; if `pat` does not
occur, return `s` unchanged. -/
def jsReplace (s pat rep : String) : String :=
  match findMatch s.data pat.data with
  | none => s
  | some (bef, aft) => ⟨bef ++ getSubstitution rep.data pat.data bef aft ++ aft⟩

/-- Boolean string-prefix test, the semantics of both JavaScript
`String.prototype.startsWith` and the Prisma `startsWith` filter. -/
def strStartsWith (s pre : String) : Bool := pre.data.isPrefixOf s.data

/-- Drop the first `n` characters of a string. -/
def strDrop (s : String) (n : Nat) : String := ⟨s.data.drop n⟩

/-- JavaScript assignment `parts[parts.length - 1] = v` for the nonempty lists
produced by `split`: replace the final element. -/
def setLast (xs : List String) (v : String) : List String := xs.dropLast ++ [v]

/-- Splitting accumulator for `strSplit`; `cur` holds the current segment
reversed. -/
def splitCharAux (sep : Char) : List Char → List Char → List (List Char)
  | [], cur => [cur.reverse]
  | c :: rest, cur =>
    if c = sep then cur.reverse :: splitCharAux sep rest []
    else splitCharAux sep rest (c :: cur)

/-- JavaScript `s.split(sep)` for a one-character separator: every occurrence
splits, empty segments are kept. -/
def strSplit (s : String) (sep : Char) : List String :=
  (splitCharAux sep s.data []).map (fun l => ⟨l⟩)

/-- JavaScript `parts.join(sep)`. -/
def strJoin (sep : String) : List String → String
  | [] => ""
  | [x] => x
  | x :: y :: rest => x ++ sep ++ strJoin sep (y :: rest)

/-- ASCII lower-casing of JavaScript `toLowerCase`, applied characterwise
(MIME type strings are ASCII). -/
def strToLower (s : String) : String := ⟨s.data.map Char.toLower⟩

/-! ## Data model (Prisma rows) -/

/-- User row: the quota ledger fields. -/
structure User where
  id : String
  quota : Int
  usedSpace : Int
deriving DecidableEq, Repr

/-- Folder row. -/
structure Folder where
  id : String
  name : String
  path : String
  parentId : Option String
  userId : String
  isDeleted : Bool
  deletedAt : Option Nat
deriving DecidableEq, Repr

/-- File row. -/
structure FileRec where
  id : String
  filename : String
  originalName : String
  mimeType : String
  size : Int
  s3Key : String
  userId : String
  folderId : Option String
  isDeleted : Bool
  deletedAt : Option Nat
deriving DecidableEq, Repr

/-- The relational store. -/
structure DB where
  users : List User
  folders : List Folder
  files : List FileRec
deriving DecidableEq, Repr

/-- The object store, as the list of keys it currently holds. -/
abbrev Store := List String

/-- Prisma `user.findUnique({ where: { id } })`. -/
def findUser (db : DB) (uid : String) : Option User :=
  db.users.find? (fun u => u.id == uid)

/-- Prisma `user.update` incrementing or decrementing `usedSpace`. -/
def bumpUsedSpace (db : DB) (uid : String) (delta : Int) : DB :=
  { db with users := db.users.map (fun u =>
      if u.id == uid then { u with usedSpace := u.usedSpace + delta } else u) }

/-! ## MIME allow-list (`src/config/mime-types.ts`) -/

/-- Allowed image MIME types, as listed in the configuration module. -/
def allowedImageMimeTypes : List String :=
  ["image/jpeg", "image/jpg", "image/png", "image/gif", "image/webp",
   "image/svg+xml", "image/bmp", "image/tiff", "image/heic", "image/heif"]

/-- The `isAllowedMimeType` predicate: membership of the lower-cased type in
the allow list. -/
def isAllowedMimeType (mimeType : String) : Bool :=
  allowedImageMimeTypes.contains (strToLower mimeType)

/-! ## Storage service key generation (`storage.service.ts`) -/

/-- Character sanitisation of `filename.replace(/[^a-zA-Z0-9.-]/g, "_")`. -/
def sanitizeChar (c : Char) : Char :=
  if c.isAlphanum || c = '.' || c = '-' then c else '_'

/-- Filename sanitisation used by `generateKey`. -/
def sanitize (filename : String) : String := ⟨filename.data.map sanitizeChar⟩

/-- The storage service `generateKey(userId, filename)`; `Date.now()` is the
explicit `timestamp` argument. -/
def generateKey (userId filename : String) (timestamp : Nat) : String :=
  "users/" ++ userId ++ "/" ++ toString timestamp ++ "-" ++ sanitize filename

/-! ## Folder creation (`folders.ts` POST `/`) -/

/-- Reply of the create-folder handler. -/
inductive CreateReply where
  /-- 400 from the fastify body schema (`name` must have `minLength 1`). -/
  | validationFailed
  /-- 404 "Parent folder not found". -/
  | parentNotFound
  /-- 409 "Folder with this path already exists". -/
  | conflict
  /-- 201 with the created row's fields. -/
  | created (id name path : String) (parentId : Option String)
deriving DecidableEq, Repr

/-- The create-folder handler.  `newId` stands for the id the database assigns
to the new row.  Note the parent lookup filters only by `id` and `userId`
(there is no `isDeleted` condition in the source), while the conflict lookup is
the raw unique index on `(userId, path)` regardless of deletion state. -/
def createFolder (uid name : String) (parentId : Option String) (newId : String)
    (db : DB) : CreateReply × DB :=
  if name = "" then (.validationFailed, db)
  else
    match parentId with
    | some pid =>
      match db.folders.find? (fun f => f.id == pid && f.userId == uid) with
      | none => (.parentNotFound, db)
      | some parent => createFolderAt uid name (some pid) (parent.path ++ "/" ++ name) newId db
    | none => createFolderAt uid name none ("/" ++ name) newId db
where
  /-- Conflict check and row insertion shared by the root and non-root paths. -/
  createFolderAt (uid name : String) (parentId : Option String) (path : String)
      (newId : String) (db : DB) : CreateReply × DB :=
    match db.folders.find? (fun f => f.userId == uid && f.path == path) with
    | some _ => (.conflict, db)
    | none =>
      let row : Folder :=
        { id := newId, name := name, path := path, parentId := parentId,
          userId := uid, isDeleted := false, deletedAt := none }
      (.created newId name path parentId, { db with folders := db.folders ++ [row] })

/-! ## Folder rename (`folders.ts` PATCH `/:id`) -/

/-- Reply of the rename-folder handler. -/
inductive RenameReply where
  /-- 400 from the fastify body schema (`name` must have `minLength 1`). -/
  | validationFailed
  /-- 404 "Folder not found". -/
  | notFound
  /-- 409 "Folder with this name already exists". -/
  | conflict
  /-- 500 "Failed to rename folder" (the transaction threw). -/
  | renameFailed
  /-- 200 with the fields of the row returned by the in-transaction update. -/
  | ok (id name path : String)
deriving DecidableEq, Repr

/-- Body of the rename transaction: update the target row, then query the
folders whose path extends the old path (the query runs inside the transaction
and therefore sees the already-updated target row), and rewrite each of them
with JavaScript `replace`. -/
def renameTx (uid fid name oldPath newPath : String)
    (folders : List Folder) : List Folder :=
  let afterSelf := folders.map (fun f =>
    if f.id == fid then { f with name := name, path := newPath } else f)
  afterSelf.map (fun f =>
    if f.userId == uid && strStartsWith f.path (oldPath ++ "/") then
      { f with path := jsReplace f.path oldPath newPath }
    else f)

/-- The rename-folder handler.  `txOk` injects a transaction failure: when
false the `$transaction` call throws, nothing is committed, and the catch
block answers 500. -/
def renameFolder (uid fid name : String) (txOk : Bool) (db : DB) :
    RenameReply × DB :=
  if name = "" then (.validationFailed, db)
  else
    match db.folders.find? (fun f =>
        f.id == fid && f.userId == uid && !f.isDeleted) with
    | none => (.notFound, db)
    | some folder =>
      let pathParts := strSplit folder.path '/'
      let newPath := strJoin "/" (setLast pathParts name)
      match db.folders.find? (fun f => f.userId == uid && f.path == newPath) with
      | some existing =>
        if existing.id ≠ fid then (.conflict, db)
        else renameCommit uid fid name folder.path newPath txOk db
      | none => renameCommit uid fid name folder.path newPath txOk db
where
  /-- Shared continuation after the conflict check; the reply carries the row
  produced by the first in-transaction update (path `newPath`), even when the
  descendant pass later rewrites that row again. -/
  renameCommit (uid fid name oldPath newPath : String) (txOk : Bool)
      (db : DB) : RenameReply × DB :=
    if txOk then
      (.ok fid name newPath,
       { db with folders := renameTx uid fid name oldPath newPath db.folders })
    else (.renameFailed, db)

/-! ## Folder deletion (`folders.ts` DELETE `/:id`) -/

/-- Reply of the delete-folder handler. -/
inductive FolderDeleteReply where
  /-- 404 "Folder not found". -/
  | notFound
  /-- 400 "Folder must be empty before deletion". -/
  | notEmpty
  /-- 204 on success. -/
  | noContent
deriving DecidableEq, Repr

/-- Prisma `_count.files` on a folder: the number of file rows whose
`folderId` references it.  The source supplies no `where` filter, so
soft-deleted files are counted too. -/
def folderFileCount (db : DB) (fid : String) : Nat :=
  (db.files.filter (fun fl => fl.folderId == some fid)).length

/-- Prisma `_count.children` on a folder: the number of folder rows whose
`parentId` references it, again with no deletion filter in the source. -/
def folderChildCount (db : DB) (fid : String) : Nat :=
  (db.folders.filter (fun f => f.parentId == some fid)).length

/-- The delete-folder handler; `now` is the `new Date()` timestamp stamped
into `deletedAt`. -/
def deleteFolder (uid fid : String) (now : Nat) (db : DB) :
    FolderDeleteReply × DB :=
  match db.folders.find? (fun f =>
      f.id == fid && f.userId == uid && !f.isDeleted) with
  | none => (.notFound, db)
  | some _ =>
    if folderFileCount db fid > 0 || folderChildCount db fid > 0 then
      (.notEmpty, db)
    else
      (.noContent,
       { db with folders := db.folders.map (fun f =>
           if f.id == fid then
             { f with isDeleted := true, deletedAt := some now }
           else f) })

/-! ## Folder contents (`folders.ts` GET `/:id/contents`) -/

/-- Summary of a subfolder in the contents reply. -/
structure SubfolderInfo where
  id : String
  name : String
  fileCount : Nat
deriving DecidableEq, Repr

/-- Summary of a file in the contents reply. -/
structure ContentFileInfo where
  id : String
  filename : String
  size : Int
  mimeType : String
deriving DecidableEq, Repr

/-- Reply of the folder-contents handler. -/
inductive ContentsReply where
  /-- 404 "Folder not found". -/
  | notFound
  /-- 200 with the folder's identity and its non-deleted children and files. -/
  | ok (id name path : String) (subfolders : List SubfolderInfo)
      (files : List ContentFileInfo)
deriving DecidableEq, Repr

/-- The folder-contents handler (read-only). -/
def folderContents (uid fid : String) (db : DB) : ContentsReply :=
  match db.folders.find? (fun f =>
      f.id == fid && f.userId == uid && !f.isDeleted) with
  | none => .notFound
  | some folder =>
    let children := (db.folders.filter (fun f =>
      f.parentId == some fid && !f.isDeleted)).map (fun f =>
        { id := f.id, name := f.name, fileCount := folderFileCount db f.id })
    let fls := (db.files.filter (fun fl =>
      fl.folderId == some fid && !fl.isDeleted)).map (fun fl =>
        { id := fl.id, filename := fl.filename, size := fl.size,
          mimeType := fl.mimeType })
    .ok folder.id folder.name folder.path children fls

/-! ## File upload (`files.ts` POST `/upload`) -/

/-- One multipart file part, fully materialised (see the header comment):
`size` is both `file.file.bytesRead` at check time and `buffer.length` after
buffering.  `mimetype` is the declared content type (possibly empty) and
`extLookup` the result of the `mime.lookup(filename)` extension table. -/
structure Part where
  filename : String
  mimetype : String
  extLookup : Option String
  size : Int
deriving DecidableEq, Repr

/-- The `file.mimetype || mime.lookup(file.filename) || "application/octet-stream"`
resolution chain (an empty declared type is falsy in JavaScript). -/
def resolveMime (p : Part) : String :=
  if p.mimetype ≠ "" then p.mimetype
  else
    match p.extLookup with
    | some m => m
    | none => "application/octet-stream"

/-- Per-file entry of the 201 reply body. -/
structure UploadedFile where
  id : String
  filename : String
  size : Int
  mimeType : String
deriving DecidableEq, Repr

/-- Reply of the upload handler. -/
inductive UploadReply where
  /-- 404 "Folder not found". -/
  | folderNotFound
  /-- 404 "User not found". -/
  | userNotFound
  /-- 413 "Quota exceeded" carrying quota, used and available. -/
  | quotaExceeded (quota used available : Int)
  /-- 400 "File type not allowed" carrying the resolved type. -/
  | typeNotAllowed (received : String)
  /-- 500 "Failed to upload files" (an object-store write threw). -/
  | uploadFailed
  /-- 201 with the accumulated per-file results. -/
  | created (files : List UploadedFile)
deriving DecidableEq, Repr

/-- The file row persisted for part `idx`: `mkId idx` is the `nanoid()` drawn
for it and `tsOf idx` its `Date.now()`. -/
def mkRow (uid : String) (folderId : Option String) (mkId : Nat → String)
    (tsOf : Nat → Nat) (idx : Nat) (p : Part) : FileRec :=
  { id := mkId idx, filename := p.filename, originalName := p.filename,
    mimeType := resolveMime p, size := p.size,
    s3Key := generateKey uid p.filename (tsOf idx), userId := uid,
    folderId := folderId, isDeleted := false, deletedAt := none }

/-- The commit performed for one successful part: the object-store write, the
`file.create` row and the `usedSpace` increment. -/
def commitPart (uid : String) (folderId : Option String)
    (mkId : Nat → String) (tsOf : Nat → Nat) (idx : Nat) (p : Part)
    (db : DB) (store : Store) : DB × Store :=
  let row := mkRow uid folderId mkId tsOf idx p
  (bumpUsedSpace { db with files := db.files ++ [row] } uid p.size,
   store ++ [row.s3Key])

/-- The reply entry accumulated for one successful part. -/
def partInfo (mkId : Nat → String) (idx : Nat) (p : Part) : UploadedFile :=
  { id := mkId idx, filename := p.filename, size := p.size,
    mimeType := resolveMime p }

/-- The `for await (const part of parts)` loop.  `snap` is the user row loaded
once before the loop; the quota check always compares against its `usedSpace`,
while the committed increments only touch the database.  An early `return`
leaves everything committed so far in place. -/
def processParts (snap : User) (uid : String) (folderId : Option String)
    (putOk : Nat → Bool) (mkId : Nat → String) (tsOf : Nat → Nat) :
    Nat → DB → Store → List UploadedFile → List Part →
    UploadReply × DB × Store
  | _, db, store, acc, [] => (.created acc, db, store)
  | idx, db, store, acc, p :: rest =>
    let fileSize := p.size
    let totalSize := snap.usedSpace + fileSize
    if totalSize > snap.quota then
      (.quotaExceeded snap.quota snap.usedSpace (snap.quota - snap.usedSpace),
       db, store)
    else
      let mimeType := resolveMime p
      if !isAllowedMimeType mimeType then
        (.typeNotAllowed mimeType, db, store)
      else if !putOk idx then (.uploadFailed, db, store)
      else
        let (db2, store2) := commitPart uid folderId mkId tsOf idx p db store
        processParts snap uid folderId putOk mkId tsOf (idx + 1) db2 store2
          (acc ++ [partInfo mkId idx p]) rest

/-- The upload handler: optional folder validation (this one does filter on
`isDeleted`), the single user load, then the part loop. -/
def uploadHandler (uid : String) (folderId : Option String)
    (putOk : Nat → Bool) (mkId : Nat → String) (tsOf : Nat → Nat)
    (parts : List Part) (db : DB) (store : Store) :
    UploadReply × DB × Store :=
  let folderOk :=
    match folderId with
    | none => true
    | some fid =>
      (db.folders.find? (fun f =>
        f.id == fid && f.userId == uid && !f.isDeleted)).isSome
  if !folderOk then (.folderNotFound, db, store)
  else
    match findUser db uid with
    | none => (.userNotFound, db, store)
    | some user => processParts user uid folderId putOk mkId tsOf 0 db store [] parts

/-! ## File download (`files.ts` GET `/:id/download`) -/

/-- Reply of the download handler.  The 200 case carries the response headers
and the object-store key that is streamed (percent-encoding of the
content-disposition filename is presentation-layer and not modelled). -/
inductive DownloadReply where
  /-- 404 "File not found". -/
  | notFound
  /-- 500 "Failed to download file" (the object-store read threw). -/
  | downloadFailed
  /-- 200 streaming the object at `key` with the given headers. -/
  | ok (contentType dispositionName : String) (size : Int) (key : String)
deriving DecidableEq, Repr

/-- The download handler (read-only); `getOk` injects an object-store read
failure. -/
def downloadFile (uid fid : String) (getOk : Bool) (db : DB) : DownloadReply :=
  match db.files.find? (fun fl =>
      fl.id == fid && fl.userId == uid && !fl.isDeleted) with
  | none => .notFound
  | some fl =>
    if getOk then .ok fl.mimeType fl.filename fl.size fl.s3Key
    else .downloadFailed

/-! ## File deletion (`files.ts` DELETE `/:id`) -/

/-- Reply of the delete-file handler. -/
inductive FileDeleteReply where
  /-- 404 "File not found". -/
  | notFound
  /-- 500 "Failed to delete file" (the object-store delete threw). -/
  | deleteFailed
  /-- 204 on success. -/
  | noContent
deriving DecidableEq, Repr

/-- The delete-file handler: the object-store delete runs first; only if it
succeeds are the soft-delete mark and the `usedSpace` decrement applied. -/
def deleteFileHandler (uid fid : String) (deleteOk : Bool) (now : Nat)
    (db : DB) (store : Store) : FileDeleteReply × DB × Store :=
  match db.files.find? (fun fl =>
      fl.id == fid && fl.userId == uid && !fl.isDeleted) with
  | none => (.notFound, db, store)
  | some fl =>
    if deleteOk then
      let db2 := { db with files := db.files.map (fun g =>
        if g.id == fid then { g with isDeleted := true, deletedAt := some now }
        else g) }
      (.noContent, bumpUsedSpace db2 uid (-fl.size),
       store.filter (fun k => k ≠ fl.s3Key))
    else (.deleteFailed, db, store)

/-! ## Derived forms of the upload loop -/

/-- Sequential commit of a list of parts, starting at part index `idx`: the
state the upload loop reaches after these parts all succeed. -/
def commitList (uid : String) (folderId : Option String)
    (mkId : Nat → String) (tsOf : Nat → Nat) :
    Nat → DB → Store → List Part → DB × Store
  | _, db, store, [] => (db, store)
  | idx, db, store, p :: rest =>
    let pr := commitPart uid folderId mkId tsOf idx p db store
    commitList uid folderId mkId tsOf (idx + 1) pr.1 pr.2 rest

/-- The file rows the loop persists for a list of parts starting at `idx`. -/
def rowList (uid : String) (folderId : Option String) (mkId : Nat → String)
    (tsOf : Nat → Nat) : Nat → List Part → List FileRec
  | _, [] => []
  | idx, p :: rest =>
    mkRow uid folderId mkId tsOf idx p ::
      rowList uid folderId mkId tsOf (idx + 1) rest

/-- The object-store keys written for a list of parts starting at `idx`. -/
def keyList (uid : String) (tsOf : Nat → Nat) : Nat → List Part → List String
  | _, [] => []
  | idx, p :: rest =>
    generateKey uid p.filename (tsOf idx) :: keyList uid tsOf (idx + 1) rest

/-- The reply entries accumulated for a list of parts starting at `idx`. -/
def infoList (mkId : Nat → String) : Nat → List Part → List UploadedFile
  | _, [] => []
  | idx, p :: rest => partInfo mkId idx p :: infoList mkId (idx + 1) rest

/-- Total size of a list of parts. -/
def sizesSum (ps : List Part) : Int := (ps.map Part.size).sum

/-! ## Helper lemmas -/

/-- GetSubstitution is the identity on replacement text containing no
dollar sign. -/
theorem getSubstitution_no_dollar (rep matched bef aft : List Char)
    (h : ∀ c ∈ rep, c ≠ '$') : getSubstitution rep matched bef aft = rep := by
  induction rep with
  | nil => rfl
  | cons c rest ih =>
    cases rest with
    | nil => rfl
    | cons d rest2 =>
      have hc : c ≠ '$' := h c (by simp)
      have ih2 := ih (fun x hx => h x (List.mem_cons_of_mem _ hx))
      simp only [getSubstitution, if_neg hc]
      exact congrArg (c :: ·) ih2

/-- When the pattern occurs right at the start of the subject, `findMatch`
returns the whole-suffix decomposition immediately. -/
theorem findMatch_of_isPrefixOf (s pat : List Char) (h : pat.isPrefixOf s) :
    findMatch s pat = some ([], s.drop pat.length) := by
  rw [findMatch.eq_def]
  simp [h]

/-- JavaScript replace, applied where the pattern is a leading piece of the
subject and the replacement has no dollar sign, substitutes that leading
piece. -/
theorem jsReplace_of_leading (s pat rep : String)
    (hpre : pat.data.isPrefixOf s.data) (hrep : ∀ c ∈ rep.data, c ≠ '$') :
    jsReplace s pat rep = ⟨rep.data ++ s.data.drop pat.length⟩ := by
  unfold jsReplace
  rw [findMatch_of_isPrefixOf _ _ hpre]
  simp only [getSubstitution_no_dollar _ _ _ _ hrep]
  rfl

/-- Looking a user up after `bumpUsedSpace` returns the bumped row. -/
theorem findUser_bumpUsedSpace (db : DB) (uid : String) (delta : Int) :
    findUser (bumpUsedSpace db uid delta) uid =
      (findUser db uid).map
        (fun u => { u with usedSpace := u.usedSpace + delta }) := by
  unfold findUser bumpUsedSpace
  simp only
  induction db.users with
  | nil => simp
  | cons u us ih =>
    by_cases h : u.id = uid
    · simp [List.find?_cons, h]
    · simpa [List.find?_cons, h] using ih

/-- The files table after committing a list of parts: the original rows
followed by one new row per part. -/
theorem commitList_files (uid : String) (folderId : Option String)
    (mkId : Nat → String) (tsOf : Nat → Nat) (ps : List Part) :
    ∀ (idx : Nat) (db : DB) (store : Store),
      (commitList uid folderId mkId tsOf idx db store ps).1.files =
        db.files ++ rowList uid folderId mkId tsOf idx ps := by
  induction ps with
  | nil => intro idx db store; simp [commitList, rowList]
  | cons p rest ih =>
    intro idx db store
    simp [commitList, rowList, commitPart, bumpUsedSpace, ih]

/-- Committing parts never touches the folders table. -/
theorem commitList_folders (uid : String) (folderId : Option String)
    (mkId : Nat → String) (tsOf : Nat → Nat) (ps : List Part) :
    ∀ (idx : Nat) (db : DB) (store : Store),
      (commitList uid folderId mkId tsOf idx db store ps).1.folders =
        db.folders := by
  induction ps with
  | nil => intro idx db store; simp [commitList]
  | cons p rest ih =>
    intro idx db store
    simp [commitList, commitPart, bumpUsedSpace, ih]

/-- The object store after committing a list of parts: the original keys
followed by one generated key per part. -/
theorem commitList_store (uid : String) (folderId : Option String)
    (mkId : Nat → String) (tsOf : Nat → Nat) (ps : List Part) :
    ∀ (idx : Nat) (db : DB) (store : Store),
      (commitList uid folderId mkId tsOf idx db store ps).2 =
        store ++ keyList uid tsOf idx ps := by
  induction ps with
  | nil => intro idx db store; simp [commitList, keyList]
  | cons p rest ih =>
    intro idx db store
    simp [commitList, keyList, commitPart, mkRow, ih]

/-- The user row after committing a list of parts: `usedSpace` grows by the
total committed size. -/
theorem commitList_findUser (uid : String) (folderId : Option String)
    (mkId : Nat → String) (tsOf : Nat → Nat) (ps : List Part) :
    ∀ (idx : Nat) (db : DB) (store : Store),
      findUser (commitList uid folderId mkId tsOf idx db store ps).1 uid =
        (findUser db uid).map
          (fun u => { u with usedSpace := u.usedSpace + sizesSum ps }) := by
  induction ps with
  | nil =>
    intro idx db store
    cases h : findUser db uid
    · simp [commitList, sizesSum, h]
    · simp [commitList, sizesSum, h]

  | cons p rest ih =>
    intro idx db store
    rw [commitList]
    simp only [commitPart]
    rw [ih]
    have hb : findUser (bumpUsedSpace
        { db with files := db.files ++ [mkRow uid folderId mkId tsOf idx p] }
        uid p.size) uid =
        (findUser { db with
            files := db.files ++ [mkRow uid folderId mkId tsOf idx p] }
          uid).map (fun u => { u with usedSpace := u.usedSpace + p.size }) :=
      findUser_bumpUsedSpace _ _ _
    have hf : findUser { db with
        files := db.files ++ [mkRow uid folderId mkId tsOf idx p] } uid =
        findUser db uid := rfl
    rw [hb, hf]
    cases findUser db uid
    · simp [sizesSum]
    · simp [sizesSum]
      ring

/-- Unrolling the upload loop across a block of parts that all pass the three
per-part gates (quota against the snapshot, MIME allow list, object-store
write). -/
theorem processParts_append (snap : User) (uid : String)
    (folderId : Option String) (putOk : Nat → Bool) (mkId : Nat → String)
    (tsOf : Nat → Nat) (pre rest : List Part) :
    ∀ (idx : Nat) (db : DB) (store : Store) (acc : List UploadedFile),
      (∀ p ∈ pre, snap.usedSpace + p.size ≤ snap.quota ∧
        isAllowedMimeType (resolveMime p) = true) →
      (∀ i, idx ≤ i → i < idx + pre.length → putOk i = true) →
      processParts snap uid folderId putOk mkId tsOf idx db store acc
          (pre ++ rest) =
        processParts snap uid folderId putOk mkId tsOf (idx + pre.length)
          (commitList uid folderId mkId tsOf idx db store pre).1
          (commitList uid folderId mkId tsOf idx db store pre).2
          (acc ++ infoList mkId idx pre) rest := by
  induction pre with
  | nil => intro idx db store acc _ _; simp [commitList, infoList]
  | cons p pre2 ih =>
    intro idx db store acc hpass hput
    obtain ⟨hq, hm⟩ := hpass p (by simp)
    have hp0 : putOk idx = true := hput idx (le_refl _) (by simp)
    rw [List.cons_append, processParts]
    simp only [not_lt.mpr hq, if_false, hm, Bool.not_true, hp0,
      Bool.false_eq_true]
    rw [ih (idx + 1) _ _ _
      (fun q hqm => hpass q (List.mem_cons_of_mem _ hqm))
      (fun i h1 h2 => hput i (by omega) (by simp only [List.length_cons]; omega))]
    simp [commitList, infoList]
    ring_nf

/-- The upload loop over a block of parts that all pass every gate produces
the 201 reply and the sequentially committed state. -/
theorem processParts_all_pass (snap : User) (uid : String)
    (folderId : Option String) (putOk : Nat → Bool) (mkId : Nat → String)
    (tsOf : Nat → Nat) (ps : List Part) (idx : Nat) (db : DB) (store : Store)
    (acc : List UploadedFile)
    (hpass : ∀ p ∈ ps, snap.usedSpace + p.size ≤ snap.quota ∧
      isAllowedMimeType (resolveMime p) = true)
    (hput : ∀ i, idx ≤ i → i < idx + ps.length → putOk i = true) :
    processParts snap uid folderId putOk mkId tsOf idx db store acc ps =
      (.created (acc ++ infoList mkId idx ps),
       (commitList uid folderId mkId tsOf idx db store ps).1,
       (commitList uid folderId mkId tsOf idx db store ps).2) := by
  have h := processParts_append snap uid folderId putOk mkId tsOf ps []
    idx db store acc hpass hput
  rw [List.append_nil] at h
  rw [h, processParts]

/-- The upload loop answers 201 precisely when every part passes the quota
check taken against the snapshot user row — the sizes of the other parts play
no role. -/
theorem processParts_created_iff (snap : User) (uid : String)
    (folderId : Option String) (putOk : Nat → Bool) (mkId : Nat → String)
    (tsOf : Nat → Nat) (ps : List Part) :
    ∀ (idx : Nat) (db : DB) (store : Store) (acc : List UploadedFile),
      (∀ p ∈ ps, isAllowedMimeType (resolveMime p) = true) →
      (∀ i, putOk i = true) →
      ((∃ fs rdb rst,
          processParts snap uid folderId putOk mkId tsOf idx db store acc ps =
            (.created fs, rdb, rst)) ↔
        ∀ p ∈ ps, snap.usedSpace + p.size ≤ snap.quota) := by
  induction ps with
  | nil =>
    intro idx db store acc _ _
    simp [processParts]
  | cons p rest ih =>
    intro idx db store acc hm hput
    by_cases hq : snap.usedSpace + p.size > snap.quota
    · rw [processParts]
      simp only [if_pos hq]
      constructor
      · rintro ⟨fs, rdb, rst, h⟩
        simp at h
      · intro hall
        exact absurd hq (not_lt.mpr (hall p (by simp)))
    · rw [processParts]
      have hmp : isAllowedMimeType (resolveMime p) = true := hm p (by simp)
      simp only [if_neg hq, hmp, Bool.not_true, Bool.false_eq_true,
        if_false, hput idx]
      rw [ih (idx + 1) _ _ _ (fun q hqm => hm q (List.mem_cons_of_mem _ hqm))
        hput]
      constructor
      · intro hall q hqm
        rcases List.mem_cons.mp hqm with hql | hqr
        · rw [hql]; exact not_lt.mp hq
        · exact hall q hqr
      · intro hall q hqm
        exact hall q (List.mem_cons_of_mem _ hqm)

/-! ## Claim theorems -/

/-- C1: a single-file upload of size `s` succeeds when `usedSpace + s ≤ quota`,
creating exactly one file row and incrementing the user's `usedSpace` by
exactly `s`, and fails with `QuotaExceeded` reporting quota, used and
available — with `usedSpace` unchanged — when `usedSpace + s > quota`. -/
theorem upload_single_file_quota_boundary
    (db : DB) (store : Store) (uid : String) (u : User) (p : Part)
    (putOk : Nat → Bool) (mkId : Nat → String) (tsOf : Nat → Nat)
    (hu : findUser db uid = some u)
    (hm : isAllowedMimeType (resolveMime p) = true)
    (hp : putOk 0 = true) :
    (u.usedSpace + p.size ≤ u.quota →
      uploadHandler uid none putOk mkId tsOf [p] db store =
        (.created [partInfo mkId 0 p],
         bumpUsedSpace
           { db with files := db.files ++ [mkRow uid none mkId tsOf 0 p] }
           uid p.size,
         store ++ [generateKey uid p.filename (tsOf 0)]) ∧
      findUser (uploadHandler uid none putOk mkId tsOf [p] db store).2.1 uid =
        some { u with usedSpace := u.usedSpace + p.size }) ∧
    (u.usedSpace + p.size > u.quota →
      uploadHandler uid none putOk mkId tsOf [p] db store =
        (.quotaExceeded u.quota u.usedSpace (u.quota - u.usedSpace),
         db, store)) := by
  have hopen : uploadHandler uid none putOk mkId tsOf [p] db store =
      processParts u uid none putOk mkId tsOf 0 db store [] [p] := by
    simp [uploadHandler, hu]
  constructor
  · intro hle
    have hres : uploadHandler uid none putOk mkId tsOf [p] db store =
        (.created [partInfo mkId 0 p],
         bumpUsedSpace
           { db with files := db.files ++ [mkRow uid none mkId tsOf 0 p] }
           uid p.size,
         store ++ [generateKey uid p.filename (tsOf 0)]) := by
      rw [hopen, processParts]
      simp [not_lt.mpr hle, hm, hp, commitPart, processParts, mkRow]
    refine ⟨hres, ?_⟩
    rw [hres]
    simp only
    rw [findUser_bumpUsedSpace]
    have hsame : findUser
        { db with files := db.files ++ [mkRow uid none mkId tsOf 0 p] } uid =
        findUser db uid := rfl
    rw [hsame, hu]
    rfl
  · intro hgt
    rw [hopen, processParts]
    simp [hgt]

/-- C1 witness: with `quota = 1000`, `usedSpace = 600`, a 500-byte upload
fails with `QuotaExceeded` and `usedSpace` stays 600. -/
theorem upload_single_file_quota_boundary_witness :
    (findUser ⟨[⟨"u", 1000, 600⟩], [], []⟩ "u" = some ⟨"u", 1000, 600⟩) ∧
    (isAllowedMimeType (resolveMime ⟨"a.png", "image/png", none, 500⟩) =
      true) ∧
    ((600 : Int) + 500 > 1000) ∧
    uploadHandler "u" none (fun _ => true) (fun _ => "fid") (fun _ => 7)
        [⟨"a.png", "image/png", none, 500⟩] ⟨[⟨"u", 1000, 600⟩], [], []⟩ [] =
      (.quotaExceeded 1000 600 400, ⟨[⟨"u", 1000, 600⟩], [], []⟩, []) := by
  refine ⟨by decide, by decide, by decide, ?_⟩
  have h := (upload_single_file_quota_boundary
    ⟨[⟨"u", 1000, 600⟩], [], []⟩ [] "u" ⟨"u", 1000, 600⟩
    ⟨"a.png", "image/png", none, 500⟩ (fun _ => true) (fun _ => "fid")
    (fun _ => 7) (by decide) (by decide) rfl).2 (by decide)
  simpa using h

/-- C3: on file delete the object-store delete runs first; if it fails the
whole operation aborts with the database (row and `usedSpace`) untouched, and
if it succeeds the row is soft-deleted with `deletedAt` stamped and the
owner's `usedSpace` drops by exactly the row's size. -/
theorem file_delete_store_first (db : DB) (store : Store)
    (uid fid : String) (fl : FileRec) (deleteOk : Bool) (now : Nat)
    (hf : db.files.find?
      (fun g => g.id == fid && g.userId == uid && !g.isDeleted) = some fl) :
    (deleteOk = false →
      deleteFileHandler uid fid deleteOk now db store =
        (.deleteFailed, db, store)) ∧
    (deleteOk = true →
      deleteFileHandler uid fid deleteOk now db store =
        (.noContent,
         bumpUsedSpace
           { db with files := db.files.map (fun g =>
               if g.id == fid then
                 { g with isDeleted := true, deletedAt := some now }
               else g) }
           uid (-fl.size),
         store.filter (fun k => k ≠ fl.s3Key)) ∧
      findUser (deleteFileHandler uid fid deleteOk now db store).2.1 uid =
        (findUser db uid).map
          (fun u => { u with usedSpace := u.usedSpace - fl.size }) ∧
      ∀ g ∈ (deleteFileHandler uid fid deleteOk now db store).2.1.files,
        g.id = fid → g.isDeleted = true ∧ g.deletedAt = some now) := by
  constructor
  · intro hno
    subst hno
    unfold deleteFileHandler
    rw [hf]
    simp
  · intro hyes
    subst hyes
    have hres : deleteFileHandler uid fid true now db store =
        (.noContent,
         bumpUsedSpace
           { db with files := db.files.map (fun g =>
               if g.id == fid then
                 { g with isDeleted := true, deletedAt := some now }
               else g) }
           uid (-fl.size),
         store.filter (fun k => k ≠ fl.s3Key)) := by
      unfold deleteFileHandler
      rw [hf]
      simp
    refine ⟨hres, ?_, ?_⟩
    · rw [hres]
      simp only
      rw [findUser_bumpUsedSpace]
      have hsame : findUser
          { db with files := db.files.map (fun g =>
              if g.id == fid then
                { g with isDeleted := true, deletedAt := some now }
              else g) } uid = findUser db uid := rfl
      rw [hsame]
      cases findUser db uid
      · rfl
      · simp [sub_eq_add_neg]
    · rw [hres]
      simp only
      intro g hg hgid
      simp only [bumpUsedSpace, List.mem_map] at hg
      obtain ⟨g0, hg0, hmap⟩ := hg
      by_cases h0 : g0.id == fid
      · rw [if_pos h0] at hmap
        subst hmap
        exact ⟨rfl, rfl⟩
      · rw [if_neg h0] at hmap
        subst hmap
        exact absurd (beq_iff_eq.mpr hgid) h0

/-- C3 witness: concrete run of both branches. -/
theorem file_delete_store_first_witness :
    ((⟨[⟨"u", 1000, 600⟩], [],
        [⟨"x", "x.png", "x.png", "image/png", 5, "k", "u", none, false,
          none⟩]⟩ : DB).files.find?
      (fun g => g.id == "x" && g.userId == "u" && !g.isDeleted) =
      some ⟨"x", "x.png", "x.png", "image/png", 5, "k", "u", none, false,
        none⟩) ∧
    deleteFileHandler "u" "x" false 9
        ⟨[⟨"u", 1000, 600⟩], [],
         [⟨"x", "x.png", "x.png", "image/png", 5, "k", "u", none, false,
           none⟩]⟩ ["k"] =
      (.deleteFailed,
       ⟨[⟨"u", 1000, 600⟩], [],
        [⟨"x", "x.png", "x.png", "image/png", 5, "k", "u", none, false,
          none⟩]⟩, ["k"]) := by
  refine ⟨by decide, ?_⟩
  exact (file_delete_store_first
    ⟨[⟨"u", 1000, 600⟩], [],
     [⟨"x", "x.png", "x.png", "image/png", 5, "k", "u", none, false, none⟩]⟩
    ["k"] "u" "x"
    ⟨"x", "x.png", "x.png", "image/png", 5, "k", "u", none, false, none⟩
    false 9 (by decide)).1 rfl

/-- C7: when no file or folder row with the requested id belongs to the
caller — which covers both another user's entity and a nonexistent id — file
download and delete, folder rename, folder delete and folder contents all
answer exactly the `NotFound` reply with the state untouched; the outcome for
a foreign-owned id is therefore literally the same value as for an id that
does not exist, never a `Conflict` and never any data. -/
theorem ownership_isolation (db : DB) (store : Store) (caller tid : String)
    (getOk deleteOk txOk : Bool) (now : Nat) (newName : String)
    (hname : newName ≠ "")
    (hfile : ∀ fl ∈ db.files, fl.id = tid → fl.userId ≠ caller)
    (hfolder : ∀ f ∈ db.folders, f.id = tid → f.userId ≠ caller) :
    downloadFile caller tid getOk db = .notFound ∧
    deleteFileHandler caller tid deleteOk now db store =
      (.notFound, db, store) ∧
    renameFolder caller tid newName txOk db = (.notFound, db) ∧
    deleteFolder caller tid now db = (.notFound, db) ∧
    folderContents caller tid db = .notFound := by
  have hfl : db.files.find?
      (fun fl => fl.id == tid && fl.userId == caller && !fl.isDeleted) =
      none := by
    rw [List.find?_eq_none]
    intro fl hmem
    simp only [Bool.and_eq_true, beq_iff_eq, Bool.not_eq_true']
    rintro ⟨⟨h1, h2⟩, _⟩
    exact hfile fl hmem h1 h2
  have hfo : db.folders.find?
      (fun f => f.id == tid && f.userId == caller && !f.isDeleted) =
      none := by
    rw [List.find?_eq_none]
    intro f hmem
    simp only [Bool.and_eq_true, beq_iff_eq, Bool.not_eq_true']
    rintro ⟨⟨h1, h2⟩, _⟩
    exact hfolder f hmem h1 h2
  refine ⟨?_, ?_, ?_, ?_, ?_⟩
  · unfold downloadFile
    rw [hfl]
  · unfold deleteFileHandler
    rw [hfl]
  · unfold renameFolder
    rw [if_neg hname, hfo]
  · unfold deleteFolder
    rw [hfo]
  · unfold folderContents
    rw [hfo]

/-- C7 witness: user "a" probing user "b"'s folder and file by id gets the
same `NotFound` outcomes as for a fresh id. -/
theorem ownership_isolation_witness :
    (("bf" : String) ≠ "") ∧
    downloadFile "a" "t1" true
        ⟨[⟨"a", 10, 0⟩, ⟨"b", 10, 3⟩],
         [⟨"t1", "d", "/d", none, "b", false, none⟩],
         [⟨"t1", "p.png", "p.png", "image/png", 3, "k", "b", none, false,
           none⟩]⟩ = .notFound ∧
    renameFolder "a" "t1" "bf" true
        ⟨[⟨"a", 10, 0⟩, ⟨"b", 10, 3⟩],
         [⟨"t1", "d", "/d", none, "b", false, none⟩],
         [⟨"t1", "p.png", "p.png", "image/png", 3, "k", "b", none, false,
           none⟩]⟩ =
      (.notFound,
       ⟨[⟨"a", 10, 0⟩, ⟨"b", 10, 3⟩],
        [⟨"t1", "d", "/d", none, "b", false, none⟩],
        [⟨"t1", "p.png", "p.png", "image/png", 3, "k", "b", none, false,
          none⟩]⟩) := by
  have h := ownership_isolation
    ⟨[⟨"a", 10, 0⟩, ⟨"b", 10, 3⟩],
     [⟨"t1", "d", "/d", none, "b", false, none⟩],
     [⟨"t1", "p.png", "p.png", "image/png", 3, "k", "b", none, false, none⟩]⟩
    [] "a" "t1" true true true 5 "bf" (by decide)
    (by decide) (by decide)
  exact ⟨by decide, h.1, h.2.2.1⟩

/-- C8: within one multi-file upload request the quota check of every part is
taken against the user row loaded once before the loop: the request is
accepted exactly when each part individually satisfies
`usedSpace_initial + s_k ≤ quota`, irrespective of the sizes committed for
earlier parts — even though on success the database `usedSpace` really does
grow by the total of all parts. -/
theorem upload_quota_snapshot_semantics (db : DB) (store : Store)
    (uid : String) (u : User) (parts : List Part) (putOk : Nat → Bool)
    (mkId : Nat → String) (tsOf : Nat → Nat)
    (hu : findUser db uid = some u)
    (hm : ∀ p ∈ parts, isAllowedMimeType (resolveMime p) = true)
    (hput : ∀ i, putOk i = true) :
    ((∃ fs rdb rst, uploadHandler uid none putOk mkId tsOf parts db store =
        (.created fs, rdb, rst)) ↔
      ∀ p ∈ parts, u.usedSpace + p.size ≤ u.quota) ∧
    ((∀ p ∈ parts, u.usedSpace + p.size ≤ u.quota) →
      findUser (uploadHandler uid none putOk mkId tsOf parts db store).2.1
          uid =
        some { u with usedSpace := u.usedSpace + sizesSum parts }) := by
  have hopen : uploadHandler uid none putOk mkId tsOf parts db store =
      processParts u uid none putOk mkId tsOf 0 db store [] parts := by
    simp [uploadHandler, hu]
  constructor
  · rw [hopen]
    exact processParts_created_iff u uid none putOk mkId tsOf parts 0 db store
      [] hm hput
  · intro hall
    rw [hopen, processParts_all_pass u uid none putOk mkId tsOf parts 0 db
      store [] (fun p hp => ⟨hall p hp, hm p hp⟩) (fun i _ _ => hput i)]
    simp only
    rw [commitList_findUser, hu]
    rfl

/-- C8 witness: quota 1000, `usedSpace` 0, parts of 600 then 500 bytes in one
request — the second part is checked against the initial snapshot (0), so the
whole request succeeds and the stored `usedSpace` ends at 1100. -/
theorem upload_quota_snapshot_semantics_witness :
    (findUser ⟨[⟨"u", 1000, 0⟩], [], []⟩ "u" = some ⟨"u", 1000, 0⟩) ∧
    (∀ p ∈ ([⟨"a.png", "image/png", none, 600⟩,
             ⟨"b.png", "image/png", none, 500⟩] : List Part),
      isAllowedMimeType (resolveMime p) = true) ∧
    (∀ p ∈ ([⟨"a.png", "image/png", none, 600⟩,
             ⟨"b.png", "image/png", none, 500⟩] : List Part),
      (0 : Int) + p.size ≤ 1000) ∧
    findUser (uploadHandler "u" none (fun _ => true) (fun _ => "fid")
        (fun _ => 7)
        [⟨"a.png", "image/png", none, 600⟩, ⟨"b.png", "image/png", none, 500⟩]
        ⟨[⟨"u", 1000, 0⟩], [], []⟩ []).2.1 "u" =
      some ⟨"u", 1000, 1100⟩ := by
  refine ⟨by decide, by decide, by decide, ?_⟩
  have h := (upload_quota_snapshot_semantics ⟨[⟨"u", 1000, 0⟩], [], []⟩ []
    "u" ⟨"u", 1000, 0⟩
    [⟨"a.png", "image/png", none, 600⟩, ⟨"b.png", "image/png", none, 500⟩]
    (fun _ => true) (fun _ => "fid") (fun _ => 7) (by decide) (by decide)
    (fun _ => rfl)).2 (by decide)
  simpa [sizesSum] using h

/-- C9: when part `k` is the first part of a multi-file request to fail —
either its quota check against the snapshot or the MIME gate — the request
returns that error immediately, and the resulting state holds exactly the
rows, object-store keys and `usedSpace` increments of parts `1..k-1`; nothing
of part `k` or any later part exists and nothing already committed is rolled
back. -/
theorem upload_error_keeps_earlier_parts (db : DB) (store : Store) (uid : String)
    (u : User) (pre : List Part) (bad : Part) (post : List Part)
    (putOk : Nat → Bool) (mkId : Nat → String) (tsOf : Nat → Nat)
    (hu : findUser db uid = some u)
    (hpre : ∀ p ∈ pre, u.usedSpace + p.size ≤ u.quota ∧
      isAllowedMimeType (resolveMime p) = true)
    (hput : ∀ i, i < pre.length → putOk i = true)
    (hbad : u.usedSpace + bad.size > u.quota ∨
      (u.usedSpace + bad.size ≤ u.quota ∧
        isAllowedMimeType (resolveMime bad) = false)) :
    uploadHandler uid none putOk mkId tsOf (pre ++ bad :: post) db store =
      ((if u.usedSpace + bad.size > u.quota then
          UploadReply.quotaExceeded u.quota u.usedSpace
            (u.quota - u.usedSpace)
        else .typeNotAllowed (resolveMime bad)),
       (commitList uid none mkId tsOf 0 db store pre).1,
       (commitList uid none mkId tsOf 0 db store pre).2) ∧
    (commitList uid none mkId tsOf 0 db store pre).1.files =
      db.files ++ rowList uid none mkId tsOf 0 pre ∧
    findUser (commitList uid none mkId tsOf 0 db store pre).1 uid =
      some { u with usedSpace := u.usedSpace + sizesSum pre } ∧
    (commitList uid none mkId tsOf 0 db store pre).2 =
      store ++ keyList uid tsOf 0 pre := by
  have hopen : uploadHandler uid none putOk mkId tsOf (pre ++ bad :: post) db
      store = processParts u uid none putOk mkId tsOf 0 db store []
        (pre ++ bad :: post) := by
    simp [uploadHandler, hu]
  refine ⟨?_, ?_, ?_, ?_⟩
  · rw [hopen, processParts_append u uid none putOk mkId tsOf pre
      (bad :: post) 0 db store [] hpre
      (fun i _ h2 => hput i (by simpa using h2))]
    rw [processParts]
    rcases hbad with hq | ⟨hq, hmime⟩
    · simp only [if_pos hq]
    · simp [if_neg (not_lt.mpr hq), hmime]
  · exact commitList_files uid none mkId tsOf pre 0 db store
  · rw [commitList_findUser, hu]
    rfl
  · exact commitList_store uid none mkId tsOf pre 0 db store

/-- C9 witness: quota 1000, `usedSpace` 0, a 600-byte part followed by an
oversized 2000-byte part and a further part — the request fails
`QuotaExceeded` and exactly the first part's row, key and increment remain. -/
theorem upload_error_keeps_earlier_parts_witness :
    (findUser ⟨[⟨"u", 1000, 0⟩], [], []⟩ "u" = some ⟨"u", 1000, 0⟩) ∧
    ((0 : Int) + 2000 > 1000) ∧
    uploadHandler "u" none (fun _ => true) (fun n => toString n)
        (fun _ => 7)
        [⟨"a.png", "image/png", none, 600⟩,
         ⟨"big.png", "image/png", none, 2000⟩,
         ⟨"c.png", "image/png", none, 10⟩]
        ⟨[⟨"u", 1000, 0⟩], [], []⟩ [] =
      (.quotaExceeded 1000 0 1000,
       ⟨[⟨"u", 1000, 600⟩], [],
        [⟨"0", "a.png", "a.png", "image/png", 600, "users/u/7-a.png", "u",
          none, false, none⟩]⟩,
       ["users/u/7-a.png"]) := by
  refine ⟨by decide, by decide, ?_⟩
  have h := (upload_error_keeps_earlier_parts ⟨[⟨"u", 1000, 0⟩], [], []⟩ [] "u"
    ⟨"u", 1000, 0⟩ [⟨"a.png", "image/png", none, 600⟩]
    ⟨"big.png", "image/png", none, 2000⟩ [⟨"c.png", "image/png", none, 10⟩]
    (fun _ => true) (fun n => toString n) (fun _ => 7) (by decide)
    (by decide) (fun i _ => rfl) (Or.inl (by decide))).1
  simp only [List.cons_append, List.nil_append] at h
  rw [h]
  decide

/-- The upload loop only ever appends to the object store. -/
theorem processParts_store_extends (snap : User) (uid : String)
    (folderId : Option String) (putOk : Nat → Bool) (mkId : Nat → String)
    (tsOf : Nat → Nat) (ps : List Part) :
    ∀ (idx : Nat) (db : DB) (store : Store) (acc : List UploadedFile),
      ∃ tail,
        (processParts snap uid folderId putOk mkId tsOf idx db store acc
          ps).2.2 = store ++ tail := by
  induction ps with
  | nil => intro idx db store acc; exact ⟨[], by simp [processParts]⟩
  | cons p rest ih =>
    intro idx db store acc
    rw [processParts]
    by_cases hq : snap.usedSpace + p.size > snap.quota
    · exact ⟨[], by simp [hq]⟩
    · rw [if_neg hq]
      by_cases hm : isAllowedMimeType (resolveMime p)
      · simp only [hm, Bool.not_true, Bool.false_eq_true, if_false]
        by_cases hp : putOk idx
        · simp only [hp, Bool.not_true, Bool.false_eq_true, if_false]
          obtain ⟨tail, htail⟩ := ih (idx + 1)
            (commitPart uid folderId mkId tsOf idx p db store).1
            (commitPart uid folderId mkId tsOf idx p db store).2
            (acc ++ [partInfo mkId idx p])
          refine ⟨(mkRow uid folderId mkId tsOf idx p).s3Key :: tail, ?_⟩
          rw [htail]
          simp [commitPart]
        · simp only [hp, Bool.not_false, if_true]
          exact ⟨[], by simp⟩
      · simp only [Bool.not_eq_true] at hm
        simp only [hm, Bool.not_false, if_true]
        exact ⟨[], by simp⟩

/-- Any file row present after the upload loop either predates the request or
references an object-store key present when the loop finished: the metadata
row is only written after the store write for its key succeeded. -/
theorem processParts_no_orphan (snap : User) (uid : String)
    (folderId : Option String) (putOk : Nat → Bool) (mkId : Nat → String)
    (tsOf : Nat → Nat) (ps : List Part) :
    ∀ (idx : Nat) (db : DB) (store : Store) (acc : List UploadedFile),
      ∀ fl ∈ (processParts snap uid folderId putOk mkId tsOf idx db store acc
          ps).2.1.files,
        fl ∈ db.files ∨ fl.s3Key ∈
          (processParts snap uid folderId putOk mkId tsOf idx db store acc
            ps).2.2 := by
  induction ps with
  | nil =>
    intro idx db store acc fl hfl
    rw [processParts] at hfl ⊢
    exact Or.inl hfl
  | cons p rest ih =>
    intro idx db store acc fl
    rw [processParts]
    by_cases hq : snap.usedSpace + p.size > snap.quota
    · rw [if_pos hq]
      exact fun hfl => Or.inl hfl
    · rw [if_neg hq]
      by_cases hm : isAllowedMimeType (resolveMime p)
      · simp only [hm, Bool.not_true, Bool.false_eq_true, if_false]
        by_cases hp : putOk idx
        · simp only [hp, Bool.not_true, Bool.false_eq_true, if_false]
          intro hfl
          have hrec := ih (idx + 1)
            (commitPart uid folderId mkId tsOf idx p db store).1
            (commitPart uid folderId mkId tsOf idx p db store).2
            (acc ++ [partInfo mkId idx p]) fl hfl
          rcases hrec with hin | hkey
          · simp only [commitPart, bumpUsedSpace] at hin
            rcases List.mem_append.mp hin with hold | hnew
            · exact Or.inl hold
            · right
              obtain ⟨tail, htail⟩ := processParts_store_extends snap uid
                folderId putOk mkId tsOf rest (idx + 1)
                (commitPart uid folderId mkId tsOf idx p db store).1
                (commitPart uid folderId mkId tsOf idx p db store).2
                (acc ++ [partInfo mkId idx p])
              rw [htail]
              simp only [List.mem_singleton] at hnew
              subst hnew
              simp [commitPart]
          · exact Or.inr hkey
        · simp only [hp, Bool.not_false, if_true]
          exact fun hfl => Or.inl hfl
      · simp only [Bool.not_eq_true] at hm
        simp only [hm, Bool.not_false, if_true]
        exact fun hfl => Or.inl hfl

/-- C4: no file row is created and no `usedSpace` increment applied unless
the object-store write for that file's key completed: (i) every file row in
the post-request state either predates the request or references a key held
by the object store, and (ii) when the store write for part `k` fails, the
request aborts with 500 and the state holds exactly the rows and increments
of the earlier parts — no row for part `k` exists. -/
theorem upload_no_orphan_row (db : DB) (store : Store) (uid : String)
    (u : User) (pre : List Part) (bad : Part) (post : List Part)
    (putOk : Nat → Bool) (mkId : Nat → String) (tsOf : Nat → Nat)
    (hu : findUser db uid = some u)
    (hpre : ∀ p ∈ pre, u.usedSpace + p.size ≤ u.quota ∧
      isAllowedMimeType (resolveMime p) = true)
    (hput : ∀ i, i < pre.length → putOk i = true)
    (hbadq : u.usedSpace + bad.size ≤ u.quota)
    (hbadm : isAllowedMimeType (resolveMime bad) = true)
    (hfail : putOk pre.length = false) :
    (∀ fl ∈ (uploadHandler uid none putOk mkId tsOf (pre ++ bad :: post) db
        store).2.1.files,
      fl ∈ db.files ∨ fl.s3Key ∈
        (uploadHandler uid none putOk mkId tsOf (pre ++ bad :: post) db
          store).2.2) ∧
    uploadHandler uid none putOk mkId tsOf (pre ++ bad :: post) db store =
      (.uploadFailed,
       (commitList uid none mkId tsOf 0 db store pre).1,
       (commitList uid none mkId tsOf 0 db store pre).2) ∧
    (commitList uid none mkId tsOf 0 db store pre).1.files =
      db.files ++ rowList uid none mkId tsOf 0 pre ∧
    findUser (commitList uid none mkId tsOf 0 db store pre).1 uid =
      some { u with usedSpace := u.usedSpace + sizesSum pre } := by
  have hopen : uploadHandler uid none putOk mkId tsOf (pre ++ bad :: post) db
      store = processParts u uid none putOk mkId tsOf 0 db store []
        (pre ++ bad :: post) := by
    simp [uploadHandler, hu]
  refine ⟨?_, ?_, ?_, ?_⟩
  · rw [hopen]
    exact processParts_no_orphan u uid none putOk mkId tsOf
      (pre ++ bad :: post) 0 db store []
  · rw [hopen, processParts_append u uid none putOk mkId tsOf pre
      (bad :: post) 0 db store [] hpre
      (fun i _ h2 => hput i (by simpa using h2))]
    rw [processParts]
    simp only [if_neg (not_lt.mpr hbadq), hbadm, Bool.not_true,
      Bool.false_eq_true, if_false, Nat.zero_add, hfail, Bool.not_false,
      if_true]
  · exact commitList_files uid none mkId tsOf pre 0 db store
  · rw [commitList_findUser, hu]
    rfl

/-- C4 witness: the store write for the second part fails — the request
aborts with 500 and only the first part's row and increment exist; the sole
new row's key is held by the store. -/
theorem upload_no_orphan_row_witness :
    (findUser ⟨[⟨"u", 1000, 0⟩], [], []⟩ "u" = some ⟨"u", 1000, 0⟩) ∧
    ((fun i => decide (i < 1)) 1 = false) ∧
    uploadHandler "u" none (fun i => decide (i < 1)) (fun n => toString n)
        (fun _ => 7)
        [⟨"a.png", "image/png", none, 600⟩, ⟨"b.png", "image/png", none, 5⟩]
        ⟨[⟨"u", 1000, 0⟩], [], []⟩ [] =
      (.uploadFailed,
       ⟨[⟨"u", 1000, 600⟩], [],
        [⟨"0", "a.png", "a.png", "image/png", 600, "users/u/7-a.png", "u",
          none, false, none⟩]⟩,
       ["users/u/7-a.png"]) := by
  refine ⟨by decide, by decide, ?_⟩
  have h := (upload_no_orphan_row ⟨[⟨"u", 1000, 0⟩], [], []⟩ [] "u"
    ⟨"u", 1000, 0⟩ [⟨"a.png", "image/png", none, 600⟩]
    ⟨"b.png", "image/png", none, 5⟩ [] (fun i => decide (i < 1))
    (fun n => toString n) (fun _ => 7) (by decide) (by decide)
    (fun i hi => by simp at hi; simp [hi]) (by decide) (by decide)
    (by decide)).2.1
  simp only [List.cons_append, List.nil_append] at h
  rw [h]
  decide

/-- C5 (divergence witness): a folder whose only ever child is a
soft-deleted file has no non-deleted child folder or file, yet the delete
handler still answers `NotEmpty` and leaves the state unchanged — the
`_count` aggregation in the source counts soft-deleted rows, and since rows
are never hard-deleted the folder can never become deletable. -/
theorem folder_delete_blocks_on_soft_deleted_child :
    ((⟨[⟨"u", 1000, 0⟩],
       [⟨"f1", "a", "/a", none, "u", false, none⟩],
       [⟨"x", "x.png", "x.png", "image/png", 5, "k", "u", some "f1", true,
         some 3⟩]⟩ : DB).files.filter
        (fun fl => fl.folderId == some "f1" && !fl.isDeleted) = [] ∧
     (⟨[⟨"u", 1000, 0⟩],
       [⟨"f1", "a", "/a", none, "u", false, none⟩],
       [⟨"x", "x.png", "x.png", "image/png", 5, "k", "u", some "f1", true,
         some 3⟩]⟩ : DB).folders.filter
        (fun f => f.parentId == some "f1" && !f.isDeleted) = []) ∧
    deleteFolder "u" "f1" 9
        ⟨[⟨"u", 1000, 0⟩],
         [⟨"f1", "a", "/a", none, "u", false, none⟩],
         [⟨"x", "x.png", "x.png", "image/png", 5, "k", "u", some "f1", true,
           some 3⟩]⟩ =
      (.notEmpty,
       ⟨[⟨"u", 1000, 0⟩],
        [⟨"f1", "a", "/a", none, "u", false, none⟩],
        [⟨"x", "x.png", "x.png", "image/png", 5, "k", "u", some "f1", true,
          some 3⟩]⟩) := by
  decide

/-- C6 counterexample: the parent lookup of the create handler carries no
deletion filter, so a create under a soft-deleted parent — which the claim
says must fail `NotFound` — succeeds and persists a new row beneath the
deleted folder's path. -/
theorem create_folder_deleted_parent_cex :
    ((⟨"p", "t", "/t", none, "u", true, some 1⟩ : Folder).isDeleted = true) ∧
    createFolder "u" "n" (some "p") "f9"
        ⟨[⟨"u", 1000, 0⟩], [⟨"p", "t", "/t", none, "u", true, some 1⟩],
         []⟩ =
      (.created "f9" "n" "/t/n" (some "p"),
       ⟨[⟨"u", 1000, 0⟩],
        [⟨"p", "t", "/t", none, "u", true, some 1⟩,
         ⟨"f9", "n", "/t/n", some "p", "u", false, none⟩], []⟩) := by
  decide

/-- C6 amended: with `parentId` given, create fails `NotFound` exactly when
no folder row with that id is owned by the caller — the parent's deletion
flag is not consulted; otherwise the path is the verbatim
`parent.path ++ "/" ++ name`, the operation fails `Conflict` whenever any
folder row of the user (deleted or not) already holds that `(userId, path)`,
and persists the new row only otherwise. -/
theorem create_folder_parent_check_amended (db : DB)
    (uid name pid newId : String) (hname : name ≠ "") :
    (db.folders.find? (fun f => f.id == pid && f.userId == uid) = none →
      createFolder uid name (some pid) newId db = (.parentNotFound, db)) ∧
    (∀ parent,
      db.folders.find? (fun f => f.id == pid && f.userId == uid) =
        some parent →
      ((∀ e, db.folders.find?
          (fun f => f.userId == uid && f.path == parent.path ++ "/" ++ name) =
            some e →
          createFolder uid name (some pid) newId db = (.conflict, db)) ∧
       (db.folders.find?
          (fun f => f.userId == uid && f.path == parent.path ++ "/" ++ name) =
            none →
          createFolder uid name (some pid) newId db =
            (.created newId name (parent.path ++ "/" ++ name) (some pid),
             { db with folders := db.folders ++
                 [⟨newId, name, parent.path ++ "/" ++ name, some pid, uid,
                   false, none⟩] })))) := by
  refine ⟨?_, ?_⟩
  · intro hnone
    simp [createFolder, hname, hnone]
  · intro parent hpar
    refine ⟨?_, ?_⟩
    · intro e hconf
      simp [createFolder, createFolder.createFolderAt, hname, hpar, hconf]
    · intro hnoconf
      simp [createFolder, createFolder.createFolderAt, hname, hpar, hnoconf]

/-- C6 amended witness: a soft-deleted parent owned by the caller is accepted
and the child row is persisted under its path. -/
theorem create_folder_parent_check_amended_witness :
    (("m" : String) ≠ "") ∧
    ((⟨[⟨"v", 50, 0⟩], [⟨"q", "s", "/s", none, "v", true, some 2⟩],
       []⟩ : DB).folders.find? (fun f => f.id == "q" && f.userId == "v") =
      some ⟨"q", "s", "/s", none, "v", true, some 2⟩) ∧
    ((⟨[⟨"v", 50, 0⟩], [⟨"q", "s", "/s", none, "v", true, some 2⟩],
       []⟩ : DB).folders.find?
        (fun f => f.userId == "v" && f.path == "/s" ++ "/" ++ "m") = none) ∧
    createFolder "v" "m" (some "q") "f7"
        ⟨[⟨"v", 50, 0⟩], [⟨"q", "s", "/s", none, "v", true, some 2⟩], []⟩ =
      (.created "f7" "m" "/s/m" (some "q"),
       ⟨[⟨"v", 50, 0⟩],
        [⟨"q", "s", "/s", none, "v", true, some 2⟩,
         ⟨"f7", "m", "/s/m", some "q", "v", false, none⟩], []⟩) := by
  refine ⟨by decide, by decide, by decide, ?_⟩
  have h := ((create_folder_parent_check_amended
    ⟨[⟨"v", 50, 0⟩], [⟨"q", "s", "/s", none, "v", true, some 2⟩], []⟩
    "v" "m" "q" "f7" (by decide)).2
    ⟨"q", "s", "/s", none, "v", true, some 2⟩ (by decide)).2 (by decide)
  simpa using h

/-- Appending strings concatenates their character lists. -/
theorem strData_append (a b : String) : (a ++ b).data = a.data ++ b.data := by
  cases a; cases b; rfl

/-- A string that starts with `a ++ b` in particular starts with `a`. -/
theorem isPrefixOf_of_startsWith_append (s a b : String)
    (h : strStartsWith s (a ++ b) = true) : a.data.isPrefixOf s.data = true := by
  unfold strStartsWith at h
  rw [strData_append] at h
  rw [List.isPrefixOf_iff_prefix] at h ⊢
  exact (List.prefix_append a.data b.data).trans h

/-- Rewriting a descendant path: when `s` extends `old ++ "/"` and the
replacement path carries no dollar sign, the JavaScript replace substitutes
the leading `old` by `new`. -/
theorem jsReplace_descendant (s old nw : String)
    (h : strStartsWith s (old ++ "/") = true)
    (hd : ∀ c ∈ nw.data, c ≠ '$') :
    jsReplace s old nw = ⟨nw.data ++ s.data.drop old.length⟩ :=
  jsReplace_of_leading s old nw (isPrefixOf_of_startsWith_append s old "/" h)
    hd

/-- Reduction of the rename handler to its committing continuation, once the
target folder is found and the conflict check passes (no distinct row holds
the new path). -/
theorem renameFolder_to_commit (db : DB) (uid fid name : String) (t : Bool)
    (folder : Folder) (newPath : String)
    (hname : name ≠ "")
    (hfind : db.folders.find?
      (fun f => f.id == fid && f.userId == uid && !f.isDeleted) =
      some folder)
    (hnp : newPath = strJoin "/" (setLast (strSplit folder.path '/') name))
    (hnoconf : ∀ e ∈ db.folders.find?
      (fun f => f.userId == uid && f.path == newPath), e.id = fid) :
    renameFolder uid fid name t db =
      renameFolder.renameCommit uid fid name folder.path newPath t db := by
  unfold renameFolder
  rw [if_neg hname, hfind]
  simp only [← hnp]
  cases hconf : db.folders.find?
      (fun f => f.userId == uid && f.path == newPath) with
  | none => rfl
  | some e =>
    have he : e.id = fid := hnoconf e (Option.mem_def.mpr hconf)
    simp [he]

/-- Rows carrying the renamed folder's id leave the transaction with exactly
the new name and new path, as long as the new path does not re-enter the
descendant query (no self-recapture). -/
theorem renameTx_target_rows (uid fid name oldPath newPath : String)
    (folders : List Folder)
    (hsafe : strStartsWith newPath (oldPath ++ "/") = false) :
    ∀ g ∈ renameTx uid fid name oldPath newPath folders,
      g.id = fid → g.name = name ∧ g.path = newPath := by
  intro g hg hgid
  unfold renameTx at hg
  rw [List.map_map] at hg
  obtain ⟨f, _, hmap⟩ := List.mem_map.mp hg
  simp only [Function.comp_apply] at hmap
  by_cases hid : (f.id == fid) = true
  · rw [if_pos hid] at hmap
    rw [if_neg (by simp [hsafe])] at hmap
    rw [← hmap]
    exact ⟨rfl, rfl⟩
  · rw [if_neg hid] at hmap
    by_cases hcond :
        (f.userId == uid && strStartsWith f.path (oldPath ++ "/")) = true
    · rw [if_pos hcond] at hmap
      rw [← hmap] at hgid
      simp only at hgid
      exact absurd (beq_iff_eq.mpr hgid) (by simpa using hid)
    · rw [if_neg hcond] at hmap
      rw [← hmap] at hgid
      exact absurd (beq_iff_eq.mpr hgid) (by simpa using hid)

/-- C2 counterexample: renaming folder `/a` (no descendants) to the name
`a/x` computes the final-segment replacement `/a/x`, yet the persisted row
ends with path `/a/x/x` — inside the transaction the descendants query runs
after the self-update and recaptures the renamed row itself, so its path has
the old prefix substituted a second time; the 200 reply even reports the
path `/a/x` that the database does not hold. -/
theorem rename_self_capture_cex :
    (strJoin "/" (setLast (strSplit "/a" '/') "a/x") = "/a/x") ∧
    renameFolder "u" "f1" "a/x" true
        ⟨[⟨"u", 1000, 0⟩], [⟨"f1", "a", "/a", none, "u", false, none⟩],
         []⟩ =
      (.ok "f1" "a/x" "/a/x",
       ⟨[⟨"u", 1000, 0⟩],
        [⟨"f1", "a/x", "/a/x/x", none, "u", false, none⟩], []⟩) := by
  decide

/-- C2 amended: for a non-deleted folder owned by the caller, provided the
computed new path neither extends the old path by a `/` (no self-recapture,
i.e. the new name does not begin with the old final segment plus `/`) nor
contains a `$` character, rename replaces the final path segment, and in the
single returned state every folder of that user whose path started with the
old path followed by `/` has the old leading piece substituted by the new
path, while every other row is untouched — and when the transaction fails
nothing at all changes. -/
theorem rename_subtree_atomic_amended (db : DB) (uid fid name : String)
    (txOk : Bool) (folder : Folder) (newPath : String)
    (hname : name ≠ "")
    (hfind : db.folders.find?
      (fun f => f.id == fid && f.userId == uid && !f.isDeleted) =
      some folder)
    (hnp : newPath = strJoin "/" (setLast (strSplit folder.path '/') name))
    (hnoconf : ∀ e ∈ db.folders.find?
      (fun f => f.userId == uid && f.path == newPath), e.id = fid)
    (hsafe : strStartsWith newPath (folder.path ++ "/") = false)
    (hdollar : ∀ c ∈ newPath.data, c ≠ '$') :
    (txOk = false → renameFolder uid fid name txOk db = (.renameFailed, db)) ∧
    (txOk = true → renameFolder uid fid name txOk db =
      (.ok fid name newPath,
       { db with folders := db.folders.map (fun f =>
           if f.id = fid then { f with name := name, path := newPath }
           else if f.userId = uid ∧
               strStartsWith f.path (folder.path ++ "/") = true then
             { f with path :=
                 ⟨newPath.data ++ f.path.data.drop folder.path.length⟩ }
           else f) })) := by
  have hred : ∀ t : Bool, renameFolder uid fid name t db =
      renameFolder.renameCommit uid fid name folder.path newPath t db :=
    fun t => renameFolder_to_commit db uid fid name t folder newPath hname
      hfind hnp hnoconf
  have htx : renameTx uid fid name folder.path newPath db.folders =
      db.folders.map (fun f =>
        if f.id = fid then { f with name := name, path := newPath }
        else if f.userId = uid ∧
            strStartsWith f.path (folder.path ++ "/") = true then
          { f with path :=
              ⟨newPath.data ++ f.path.data.drop folder.path.length⟩ }
        else f) := by
    unfold renameTx
    rw [List.map_map]
    apply List.map_congr_left
    intro f _
    simp only [Function.comp_apply]
    by_cases hid : f.id = fid
    · have hidb : (f.id == fid) = true := beq_iff_eq.mpr hid
      simp [hidb, hsafe, hid]
    · have hidb : (f.id == fid) = false := beq_eq_false_iff_ne.mpr hid
      simp only [hidb, Bool.false_eq_true, if_false, if_neg hid]
      by_cases hcond :
          (f.userId == uid && strStartsWith f.path (folder.path ++ "/")) =
            true
      · have hcond2 : f.userId = uid ∧
            strStartsWith f.path (folder.path ++ "/") = true := by
          simpa using hcond
        rw [if_pos hcond, if_pos hcond2,
          jsReplace_descendant f.path folder.path newPath hcond2.2 hdollar]
      · rw [if_neg (by simpa using hcond), if_neg]
        intro hand
        exact hcond (by simp [hand.1, hand.2])
  refine ⟨?_, ?_⟩
  · intro ht
    subst ht
    rw [hred false]
    rfl
  · intro ht
    subst ht
    rw [hred true]
    unfold renameFolder.renameCommit
    rw [if_pos rfl, htx]

/-- C2 amended witness: renaming `/a` (child `/a/x`) to `b` yields `/b` and
`/b/x` together in the one resulting state. -/
theorem rename_subtree_atomic_amended_witness :
    (("b" : String) ≠ "") ∧
    ((DB.mk [⟨"u", 1000, 0⟩]
        [⟨"f1", "a", "/a", none, "u", false, none⟩,
         ⟨"f2", "x", "/a/x", some "f1", "u", false, none⟩] []).folders.find?
        (fun f => f.id == "f1" && f.userId == "u" && !f.isDeleted) =
      some ⟨"f1", "a", "/a", none, "u", false, none⟩) ∧
    (("/b" : String) = strJoin "/" (setLast (strSplit "/a" '/') "b")) ∧
    ((DB.mk [⟨"u", 1000, 0⟩]
        [⟨"f1", "a", "/a", none, "u", false, none⟩,
         ⟨"f2", "x", "/a/x", some "f1", "u", false, none⟩] []).folders.find?
        (fun f => f.userId == "u" && f.path == "/b") = none) ∧
    (strStartsWith "/b" ("/a" ++ "/") = false) ∧
    (∀ c ∈ ("/b" : String).data, c ≠ '$') ∧
    renameFolder "u" "f1" "b" true
        (DB.mk [⟨"u", 1000, 0⟩]
          [⟨"f1", "a", "/a", none, "u", false, none⟩,
           ⟨"f2", "x", "/a/x", some "f1", "u", false, none⟩] []) =
      (.ok "f1" "b" "/b",
       DB.mk [⟨"u", 1000, 0⟩]
         [⟨"f1", "b", "/b", none, "u", false, none⟩,
          ⟨"f2", "x", "/b/x", some "f1", "u", false, none⟩] []) := by
  refine ⟨by decide, by decide, by decide, by decide, by decide, by decide,
    ?_⟩
  have h := (rename_subtree_atomic_amended
    (DB.mk [⟨"u", 1000, 0⟩]
      [⟨"f1", "a", "/a", none, "u", false, none⟩,
       ⟨"f2", "x", "/a/x", some "f1", "u", false, none⟩] [])
    "u" "f1" "b" true ⟨"f1", "a", "/a", none, "u", false, none⟩ "/b"
    (by decide) (by decide) (by decide)
    (fun e he => by
      rw [show ((DB.mk [⟨"u", 1000, 0⟩]
          [⟨"f1", "a", "/a", none, "u", false, none⟩,
           ⟨"f2", "x", "/a/x", some "f1", "u", false, none⟩] []).folders.find?
          (fun f => f.userId == "u" && f.path == "/b")) =
        none from by decide] at he
      exact absurd he (by simp))
    (by decide) (by decide)).2 rfl
  rw [h]
  decide

/-- C10 counterexample: renaming `/docs` to the name `docs/v2` computes the
final-segment replacement `/docs/v2`, but the persisted path is
`/docs/v2/v2` — for a new name that begins with the old final segment plus
`/`, the renamed row matches the in-transaction descendant query and its path
has the old leading piece substituted once more, so the stored path is not
the claimed split-replace-join result. -/
theorem rename_slash_name_cex :
    (strJoin "/" (setLast (strSplit "/docs" '/') "docs/v2") = "/docs/v2") ∧
    renameFolder "u2" "d1" "docs/v2" true
        (DB.mk [⟨"u2", 10, 0⟩]
          [⟨"d1", "docs", "/docs", none, "u2", false, none⟩] []) =
      (.ok "d1" "docs/v2" "/docs/v2",
       DB.mk [⟨"u2", 10, 0⟩]
         [⟨"d1", "docs/v2", "/docs/v2/v2", none, "u2", false, none⟩] []) := by
  decide

/-- C10 amended: folder create and rename accept any non-empty string as the
name, including strings containing `/`.  For create the persisted path is the
verbatim concatenation `parent.path ++ "/" ++ name` with `parentId` still the
original parent, so a slashed name yields a stored path that parses as
several segments.  For rename the persisted path of the renamed folder is the
old path with its final `/`-split segment replaced by the new name, provided
that replacement does not itself start with the old path plus `/` (i.e. the
name does not begin with the old final segment plus `/`); in that excluded
case the stored path has the old leading piece substituted a second time. -/
theorem slash_names_amended (db : DB) (uid name : String)
    (hname : name ≠ "") :
    (∀ pid newId parent,
      db.folders.find? (fun f => f.id == pid && f.userId == uid) =
        some parent →
      db.folders.find? (fun f => f.userId == uid &&
        f.path == parent.path ++ "/" ++ name) = none →
      createFolder uid name (some pid) newId db =
        (.created newId name (parent.path ++ "/" ++ name) (some pid),
         { db with folders := db.folders ++
             [⟨newId, name, parent.path ++ "/" ++ name, some pid, uid,
               false, none⟩] })) ∧
    (∀ fid folder,
      db.folders.find?
        (fun f => f.id == fid && f.userId == uid && !f.isDeleted) =
        some folder →
      (∀ e ∈ db.folders.find? (fun f => f.userId == uid &&
          f.path == strJoin "/" (setLast (strSplit folder.path '/') name)),
        e.id = fid) →
      strStartsWith (strJoin "/" (setLast (strSplit folder.path '/') name))
        (folder.path ++ "/") = false →
      (renameFolder uid fid name true db).1 =
        .ok fid name
          (strJoin "/" (setLast (strSplit folder.path '/') name)) ∧
      ∀ g ∈ (renameFolder uid fid name true db).2.folders,
        g.id = fid → g.name = name ∧
          g.path = strJoin "/" (setLast (strSplit folder.path '/') name)) := by
  constructor
  · intro pid newId parent hpar hnoconf
    simp [createFolder, createFolder.createFolderAt, hname, hpar, hnoconf]
  · intro fid folder hfind hnoconf hsafe
    have hred := renameFolder_to_commit db uid fid name true folder
      (strJoin "/" (setLast (strSplit folder.path '/') name)) hname hfind rfl
      hnoconf
    rw [hred]
    unfold renameFolder.renameCommit
    rw [if_pos rfl]
    exact ⟨rfl, renameTx_target_rows uid fid name folder.path _ db.folders
      hsafe⟩

/-- C10 amended witness: creating `a/b` under parent `/t` stores the verbatim
path `/t/a/b` (four `/`-split segments) with `parentId` still the parent, and
renaming `/a` to the non-capturing slashed name `b/c` stores path `/b/c`. -/
theorem slash_names_amended_witness :
    (("a/b" : String) ≠ "") ∧
    ((DB.mk [⟨"u", 9, 0⟩] [⟨"p1", "t", "/t", none, "u", false, none⟩]
        []).folders.find? (fun f => f.id == "p1" && f.userId == "u") =
      some ⟨"p1", "t", "/t", none, "u", false, none⟩) ∧
    ((DB.mk [⟨"u", 9, 0⟩] [⟨"p1", "t", "/t", none, "u", false, none⟩]
        []).folders.find? (fun f => f.userId == "u" &&
        f.path == "/t" ++ "/" ++ "a/b") = none) ∧
    createFolder "u" "a/b" (some "p1") "n1"
        (DB.mk [⟨"u", 9, 0⟩] [⟨"p1", "t", "/t", none, "u", false, none⟩]
          []) =
      (.created "n1" "a/b" "/t/a/b" (some "p1"),
       DB.mk [⟨"u", 9, 0⟩]
         [⟨"p1", "t", "/t", none, "u", false, none⟩,
          ⟨"n1", "a/b", "/t/a/b", some "p1", "u", false, none⟩] []) ∧
    (strSplit "/t/a/b" '/').length = 4 ∧
    (strStartsWith (strJoin "/" (setLast (strSplit "/a" '/') "b/c"))
      ("/a" ++ "/") = false) ∧
    (∀ g ∈ (renameFolder "u" "d9" "b/c" true
        (DB.mk [⟨"u", 9, 0⟩] [⟨"d9", "a", "/a", none, "u", false, none⟩]
          [])).2.folders,
      g.id = "d9" → g.name = "b/c" ∧ g.path = "/b/c") := by
  refine ⟨by decide, by decide, by decide, ?_, by decide, by decide, ?_⟩
  · have h := (slash_names_amended
      (DB.mk [⟨"u", 9, 0⟩] [⟨"p1", "t", "/t", none, "u", false, none⟩] [])
      "u" "a/b" (by decide)).1 "p1" "n1"
      ⟨"p1", "t", "/t", none, "u", false, none⟩ (by decide) (by decide)
    simpa using h
  · have h := ((slash_names_amended
      (DB.mk [⟨"u", 9, 0⟩] [⟨"d9", "a", "/a", none, "u", false, none⟩] [])
      "u" "b/c" (by decide)).2 "d9"
      ⟨"d9", "a", "/a", none, "u", false, none⟩ (by decide)
      (fun e he => by
        rw [show ((DB.mk [⟨"u", 9, 0⟩]
            [⟨"d9", "a", "/a", none, "u", false, none⟩] []).folders.find?
            (fun f => f.userId == "u" &&
              f.path == strJoin "/" (setLast (strSplit "/a" '/') "b/c"))) =
          none from by decide] at he
        exact absurd he (by simp))
      (by decide)).2
    intro g hg hgid
    have := h g hg hgid
    simpa using this

end Cubby
